import Mathlib

/-!
Verification of the FOON parsing and search program
(file Solution-1/foon_parse_assign2.py of the repository).

The program is embedded shallowly:

* Python strings are Lean strings (backed by lists of characters); the
  helpers pySplit, pyStarts, joinSpace, strIn mirror the behaviour of
  the Python functions str.split(), str.startswith, str.join and the substring test.
* A functional unit is a list of normalized lines (PyUnit).
* Python exceptions (IndexError from indexing past the end of a token
  list, ZeroDivisionError from dividing by a zero success rate) are made
  explicit with an Except PyErr result type.
* Mutable state is absent after load; the search functions take the
  loaded state (FOON) as a plain argument.  For the frame claim, state
  threading variants with suffix St pass the state through every step of
  every loop, mirroring the Python object whose fields the methods could
  in principle assign.
* Floating point success rates are modelled as rationals; the only
  observable property of a rate in the program is whether it is zero
  (Python raises ZeroDivisionError on 1/0.0).
-/

/-- Python whitespace characters as they occur in the str.split, str.strip
and regexp \s behaviour (ASCII range; the FOON input files are ASCII). -/
def pyIsSpace (c : Char) : Bool :=
  c = ' ' || c = '\t' || c = '\n' || c = '\r' || c = Char.ofNat 11 || c = Char.ofNat 12

/-- A regexp word character (\w): alphanumeric or underscore (ASCII range). -/
def isWordChar (c : Char) : Bool :=
  c.isAlphanum || c = '_'

/-- Whether the first list is an initial segment of the second. -/
def listStarts : List Char → List Char → Bool
  | [], _ => true
  | _ :: _, [] => false
  | a :: as, b :: bs => a = b && listStarts as bs

/-- Whether the first list occurs as a contiguous segment of the second
(Python: needle in haystack for strings). -/
def subOcc : List Char → List Char → Bool
  | needle, [] => needle.isEmpty
  | needle, b :: bs => listStarts needle (b :: bs) || subOcc needle bs

/-- Python substring test: needle in haystack. -/
def strIn (needle hay : String) : Bool :=
  subOcc needle.data hay.data

/-- Python str.startswith with a one character argument: the string is
nonempty and its first character is the given one. -/
def pyStarts (s : String) (c : Char) : Bool :=
  match s.data with
  | [] => false
  | a :: _ => a = c

/-- Accumulating worker for pySplit. -/
def pySplitAux (cur : List Char) : List Char → List String
  | [] => if cur.isEmpty then [] else [String.mk cur.reverse]
  | c :: cs =>
    if pyIsSpace c then
      if cur.isEmpty then pySplitAux [] cs
      else String.mk cur.reverse :: pySplitAux [] cs
    else pySplitAux (c :: cur) cs

/-- Python str.split() with no separator: split on runs of whitespace,
discarding empty pieces. -/
def pySplit (s : String) : List String :=
  pySplitAux [] s.data

/-- Python ' '.join(parts). -/
def joinSpace : List String → String
  | [] => ""
  | [s] => s
  | s :: rest => s ++ " " ++ joinSpace rest

/-- Second token of a line: line.split()[1] when it exists. -/
def tok1 (l : String) : Option String :=
  (pySplit l)[1]?

/-- Collapse every run of whitespace to a single space character
(re.sub of the pattern of one or more whitespace with a space).
The Boolean records whether the previous character was whitespace. -/
def collapseAux (prevSpace : Bool) : List Char → List Char
  | [] => []
  | c :: cs =>
    if pyIsSpace c then
      if prevSpace then collapseAux true cs else ' ' :: collapseAux true cs
    else c :: collapseAux false cs

/-- Strip leading and trailing Python whitespace from a character list. -/
def stripWs (l : List Char) : List Char :=
  ((l.dropWhile pyIsSpace).reverse.dropWhile pyIsSpace).reverse

/-- Line normalization of load_foon: remove every character that is
neither a word character nor whitespace, strip, lowercase, and collapse
whitespace runs to single spaces. -/
def normalizeLine (s : String) : String :=
  let kept := s.data.filter (fun c => isWordChar c || pyIsSpace c)
  let lowered := (stripWs kept).map Char.toLower
  String.mk (collapseAux false lowered)

/-- Exceptions the embedded code can raise. -/
inductive PyErr where
  | indexError
  | zeroDivisionError
deriving DecidableEq, Repr

/-- Return value of available_in_kitchen: the Python value True, or the
list of missing object names. -/
inductive KitchenStatus where
  | ktrue
  | missing (objs : List String)
deriving DecidableEq, Repr

/-- Python truthiness of a KitchenStatus value: True is truthy, a list is
truthy exactly when it is nonempty. -/
def KitchenStatus.pyTruthy : KitchenStatus → Bool
  | .ktrue => true
  | .missing objs => !objs.isEmpty

/-- A functional unit: an ordered list of normalized text lines. -/
abbrev PyUnit := List String

/-- Association list lookup, mirroring a Python dict keyed by strings. -/
def alookup {α : Type} : List (String × α) → String → Option α
  | [], _ => none
  | (k, v) :: rest, key => if k = key then some v else alookup rest key

/-- Dict update used by load_foon: append a unit to the bucket of a key,
creating the bucket when the key is new. -/
def aupd {α : Type} : List (String × List α) → String → α → List (String × List α)
  | [], key, v => [(key, [v])]
  | (k, vs) :: rest, key, v =>
    if k = key then (k, vs ++ [v]) :: rest else (k, vs) :: aupd rest key v

/-- The loaded state of OptimizedFOONSearch: the parsed units, the
object name to units index, the kitchen set and the motion table. -/
structure FOON where
  graph : List PyUnit
  unit_to_objects : List (String × List PyUnit)
  kitchen : List String
  motion_data : List (String × Rat)

instance : DecidableEq (Except PyErr KitchenStatus) := fun a b =>
  match a, b with
  | .ok x, .ok y =>
    if h : x = y then .isTrue (by rw [h]) else .isFalse (fun hc => h (Except.ok.inj hc))
  | .ok _, .error _ => .isFalse (fun hc => Except.noConfusion hc)
  | .error _, .ok _ => .isFalse (fun hc => Except.noConfusion hc)
  | .error x, .error y =>
    if h : x = y then .isTrue (by rw [h]) else .isFalse (fun hc => h (Except.error.inj hc))

instance : DecidableEq (Except PyErr Bool) := fun a b =>
  match a, b with
  | .ok x, .ok y =>
    if h : x = y then .isTrue (by rw [h]) else .isFalse (fun hc => h (Except.ok.inj hc))
  | .ok _, .error _ => .isFalse (fun hc => Except.noConfusion hc)
  | .error _, .ok _ => .isFalse (fun hc => Except.noConfusion hc)
  | .error x, .error y =>
    if h : x = y then .isTrue (by rw [h]) else .isFalse (fun hc => h (Except.error.inj hc))

instance : DecidableEq (Except PyErr (Option PyUnit)) := fun a b =>
  match a, b with
  | .ok x, .ok y =>
    if h : x = y then .isTrue (by rw [h]) else .isFalse (fun hc => h (Except.ok.inj hc))
  | .ok _, .error _ => .isFalse (fun hc => Except.noConfusion hc)
  | .error _, .ok _ => .isFalse (fun hc => Except.noConfusion hc)
  | .error x, .error y =>
    if h : x = y then .isTrue (by rw [h]) else .isFalse (fun hc => h (Except.error.inj hc))

/-- Loop of available_in_kitchen: walk the lines of a unit accumulating
the names of missing objects; indexing a one token object line past its
end raises IndexError. -/
def availLoop (kitchen : List String) : List String → List String → Except PyErr (List String)
  | missing, [] => .ok missing
  | missing, line :: rest =>
    if pyStarts line 'o' then
      match tok1 line with
      | none => .error PyErr.indexError
      | some object_name =>
        if kitchen.contains object_name then availLoop kitchen missing rest
        else availLoop kitchen (missing ++ [object_name]) rest
    else availLoop kitchen missing rest

/-- available_in_kitchen: True when no object line is missing from the
kitchen, otherwise the list of missing names, in line order. -/
def available_in_kitchen (kitchen : List String) (unit : PyUnit) : Except PyErr KitchenStatus :=
  match availLoop kitchen [] unit with
  | .error e => .error e
  | .ok missing =>
    .ok (if missing.isEmpty then KitchenStatus.ktrue else KitchenStatus.missing missing)

/-- The state value of a line: the tokens of the line after the first,
joined by single spaces (Python: ' '.join(parts[1:])). -/
def stateValOf (l : String) : String :=
  joinSpace ((pySplit l).drop 1)

/-- Loop of unit_matches_goal: object_match and state_match flags over
the lines of a unit. -/
def umgLoop (go gs : String) : Bool → Bool → List String → Except PyErr (Bool × Bool)
  | om, sm, [] => .ok (om, sm)
  | om, sm, line :: rest =>
    if pyStarts line 'o' then
      match (pySplit line)[1]? with
      | none => .error PyErr.indexError
      | some object_name => umgLoop go gs (om || (go = object_name)) sm rest
    else if pyStarts line 's' then
      umgLoop go gs om (sm || (strIn gs (stateValOf line) || gs = stateValOf line)) rest
    else umgLoop go gs om sm rest

/-- unit_matches_goal: some object line names the goal object and some
state line contains the goal state. -/
def unit_matches_goal (unit : PyUnit) (go gs : String) : Except PyErr Bool :=
  match umgLoop go gs false false unit with
  | .error e => .error e
  | .ok (om, sm) => .ok (om && sm)

/-- Bucket scan of depth_limited_search: return the first unit that
matches the goal and whose kitchen status is the value True (Python
tests kitchen_status is True). -/
def dlsLoop (st : FOON) (go gs : String) : List PyUnit → Except PyErr (Option PyUnit)
  | [] => .ok none
  | u :: rest =>
    match unit_matches_goal u go gs with
    | .error e => .error e
    | .ok m =>
      if m then
        match available_in_kitchen st.kitchen u with
        | .error e => .error e
        | .ok ks =>
          if ks = KitchenStatus.ktrue then .ok (some u) else dlsLoop st go gs rest
      else dlsLoop st go gs rest

/-- depth_limited_search: None at depth zero or for an unknown goal
object, otherwise a single scan of the bucket of the goal object. -/
def depth_limited_search (st : FOON) (go gs : String) (depth : Int) : Except PyErr (Option PyUnit) :=
  if depth = 0 then .ok none
  else
    match alookup st.unit_to_objects go with
    | none => .ok none
    | some bucket => dlsLoop st go gs bucket

/-- Python truthiness of a search result: None is falsy, a unit is
truthy exactly when nonempty. -/
def pyTruthyOpt : Option PyUnit → Bool
  | none => false
  | some u => !u.isEmpty

/-- Python range(n) over machine integers, as a list. -/
def pyRange (n : Int) : List Int :=
  (List.range n.toNat).map Int.ofNat

/-- Loop of iterative_deepening_search over the list of depths: return
the first truthy depth limited result. -/
def idsLoop (st : FOON) (go gs : String) : List Int → Except PyErr (Option PyUnit)
  | [] => .ok none
  | d :: ds =>
    match depth_limited_search st go gs d with
    | .error e => .error e
    | .ok r => if pyTruthyOpt r then .ok r else idsLoop st go gs ds

/-- iterative_deepening_search: try every depth in range(max_depth),
returning the first truthy result, else None. -/
def iterative_deepening_search (st : FOON) (go gs : String) (max_depth : Int) :
    Except PyErr (Option PyUnit) :=
  idsLoop st go gs (pyRange max_depth)

/-- Bucket scan of a_star_search.  The availability result is used as a
Python truth value (the second operand of the and); the success rate of
the second token of the first line is fetched with default 1 and the cost
term is computed (a zero rate raises ZeroDivisionError) and then
discarded, because the function returns at once. -/
def astarScan (st : FOON) (go gs : String) (cost : Rat) : List PyUnit → Except PyErr (Option PyUnit)
  | [] => .ok none
  | u :: rest =>
    match unit_matches_goal u go gs with
    | .error e => .error e
    | .ok m =>
      if m then
        match available_in_kitchen st.kitchen u with
        | .error e => .error e
        | .ok ks =>
          if ks.pyTruthy then
            match u[0]? with
            | none => .error PyErr.indexError
            | some l0 =>
              match (pySplit l0)[1]? with
              | none => .error PyErr.indexError
              | some key =>
                let success_rate := (alookup st.motion_data key).getD 1
                if success_rate = 0 then .error PyErr.zeroDivisionError
                else
                  let _new_cost := cost + 1 / success_rate
                  .ok (some u)
          else astarScan st go gs cost rest
      else astarScan st go gs cost rest

/-- a_star_search.  The open list holds the single synthetic start node
(cost 0, goal object, goal state); it is popped on the first iteration,
is not in the empty closed set, and no successor is ever pushed, so the
while loop runs exactly once: an unknown goal object falls through to
the final return None, and otherwise the bucket of the goal object is scanned
once. -/
def a_star_search (st : FOON) (go gs : String) : Except PyErr (Option PyUnit) :=
  match alookup st.unit_to_objects go with
  | none => .ok none
  | some bucket => astarScan st go gs 0 bucket

/-- A unit is token well formed when every object line has a second
token; on such units the Python code raises no IndexError. -/
def wfUnit (u : PyUnit) : Prop :=
  ∀ l ∈ u, pyStarts l 'o' = true → (tok1 l).isSome = true

instance (u : PyUnit) : Decidable (wfUnit u) := by
  unfold wfUnit; infer_instance

/-- The object names of the object lines of a unit that are absent from
the kitchen, in line order (specification of the missing list). -/
def missingOf (kitchen : List String) (u : PyUnit) : List String :=
  (u.filterMap (fun l => if pyStarts l 'o' then tok1 l else none)).filter
    (fun n => !kitchen.contains n)

lemma availLoop_char (kitchen : List String) (u : List String) (hwf : wfUnit u) :
    ∀ acc, availLoop kitchen acc u = .ok (acc ++ missingOf kitchen u) := by
  induction u with
  | nil => intro acc; simp [availLoop, missingOf]
  | cons line rest ih =>
    intro acc
    have hrest : wfUnit rest := fun l hl => hwf l (List.mem_cons_of_mem _ hl)
    by_cases ho : pyStarts line 'o' = true
    · obtain ⟨name, hname⟩ := Option.isSome_iff_exists.mp (hwf line (List.mem_cons_self _ _) ho)
      by_cases hk : kitchen.contains name = true
      · have hkm : name ∈ kitchen := List.elem_iff.mp hk
        rw [availLoop]
        simp only [ho, if_true, hname]
        rw [ih hrest acc]
        simp [missingOf, List.filterMap_cons, ho, hname, hkm]
      · have hkm : name ∉ kitchen := fun hc => hk (List.elem_iff.mpr hc)
        rw [availLoop]
        simp only [ho, if_true, hname]
        rw [if_neg (by simpa using hkm), ih hrest (acc ++ [name])]
        simp [missingOf, List.filterMap_cons, ho, hname, hkm]
    · rw [availLoop]
      simp only [ho, if_false]
      rw [ih hrest acc]
      simp [missingOf, List.filterMap_cons, ho]

lemma missingOf_nil_iff (kitchen : List String) (u : PyUnit) :
    missingOf kitchen u = [] ↔
      ∀ l ∈ u, pyStarts l 'o' = true →
        ∀ name, tok1 l = some name → kitchen.contains name = true := by
  unfold missingOf
  rw [List.filter_eq_nil_iff]
  constructor
  · intro h l hl ho name hname
    have hx : name ∈ List.filterMap (fun l => if pyStarts l 'o' then tok1 l else none) u :=
      List.mem_filterMap.mpr ⟨l, hl, by simp [ho, hname]⟩
    have := h name hx
    simpa using this
  · intro h x hx
    obtain ⟨l, hl, hf⟩ := List.mem_filterMap.mp hx
    by_cases ho : pyStarts l 'o' = true
    · rw [if_pos ho] at hf
      have := h l hl ho x hf
      simp [List.elem_iff.mp this]
    · rw [if_neg ho] at hf
      exact absurd hf (by simp)

/-- Claim C2: on a token well formed unit, available_in_kitchen returns
True exactly when the object name of every object line is in the kitchen set,
and otherwise returns exactly the list of missing object names in the
order their lines appear in the unit. -/
theorem c2_available_in_kitchen (kitchen : List String) (u : PyUnit) (hwf : wfUnit u) :
    available_in_kitchen kitchen u =
      .ok (if missingOf kitchen u = [] then KitchenStatus.ktrue
           else KitchenStatus.missing (missingOf kitchen u)) ∧
    (available_in_kitchen kitchen u = .ok KitchenStatus.ktrue ↔
      ∀ l ∈ u, pyStarts l 'o' = true →
        ∀ name, tok1 l = some name → kitchen.contains name = true) := by
  have hfirst : available_in_kitchen kitchen u =
      .ok (if missingOf kitchen u = [] then KitchenStatus.ktrue
           else KitchenStatus.missing (missingOf kitchen u)) := by
    unfold available_in_kitchen
    rw [availLoop_char kitchen u hwf []]
    cases hm : missingOf kitchen u with
    | nil => simp
    | cons a l => simp
  refine ⟨hfirst, ?_⟩
  rw [hfirst, ← missingOf_nil_iff kitchen u]
  constructor
  · intro h
    by_cases hm : missingOf kitchen u = []
    · exact hm
    · rw [if_neg hm] at h
      exact absurd (Except.ok.inj h) (by simp)
  · intro hm
    rw [if_pos hm]

/-- Witness for claim C2 at a concrete kitchen and unit. -/
theorem c2_witness :
    available_in_kitchen ["onion"] ["o onion 1", "o egg 1", "s raw"] =
      .ok (if missingOf ["onion"] ["o onion 1", "o egg 1", "s raw"] = [] then KitchenStatus.ktrue
           else KitchenStatus.missing (missingOf ["onion"] ["o onion 1", "o egg 1", "s raw"])) :=
  (c2_available_in_kitchen ["onion"] ["o onion 1", "o egg 1", "s raw"] (by decide)).1

lemma availLoop_no_obj (kitchen : List String) (u : List String)
    (h : ∀ l ∈ u, pyStarts l 'o' = false) : ∀ acc, availLoop kitchen acc u = .ok acc := by
  induction u with
  | nil => intro acc; simp [availLoop]
  | cons line rest ih =>
    intro acc
    rw [availLoop]
    simp only [h line (List.mem_cons_self _ _), if_false]
    exact ih (fun l hl => h l (List.mem_cons_of_mem _ hl)) acc

/-- Helper: every successfully returned kitchen status is truthy. -/
lemma avail_ok_truthy (kitchen : List String) (u : PyUnit) (ks : KitchenStatus)
    (h : available_in_kitchen kitchen u = .ok ks) : ks.pyTruthy = true := by
  unfold available_in_kitchen at h
  cases hl : availLoop kitchen [] u with
  | error e => rw [hl] at h; exact absurd h (by simp)
  | ok missing =>
    rw [hl] at h
    cases missing with
    | nil =>
      simp only [List.isEmpty_nil, if_true] at h
      rw [← Except.ok.inj h]
      rfl
    | cons a l =>
      simp only [List.isEmpty_cons, if_false] at h
      rw [← Except.ok.inj h]
      rfl

/-- Claim C4: the value of available_in_kitchen is never falsy; it is
True or a nonempty list of missing names, a unit with no object lines
yields True, and as a Python truth value the result is always true. -/
theorem c4_never_falsy :
    (∀ (kitchen : List String) (u : PyUnit) (ks : KitchenStatus),
        available_in_kitchen kitchen u = .ok ks → ks.pyTruthy = true) ∧
    (∀ (kitchen : List String) (u : PyUnit),
        (∀ l ∈ u, pyStarts l 'o' = false) →
        available_in_kitchen kitchen u = .ok KitchenStatus.ktrue) := by
  refine ⟨avail_ok_truthy, ?_⟩
  intro kitchen u h
  unfold available_in_kitchen
  rw [availLoop_no_obj kitchen u h []]
  rfl

/-- Witness for claim C4: a concrete unit with a missing object still
yields a truthy value, and a concrete unit with no object lines yields
True. -/
theorem c4_witness :
    KitchenStatus.pyTruthy (KitchenStatus.missing ["egg"]) = true ∧
    available_in_kitchen [] ["m pick", "s raw"] = .ok KitchenStatus.ktrue :=
  ⟨c4_never_falsy.1 [] ["o egg 1"] (KitchenStatus.missing ["egg"]) (by decide),
   c4_never_falsy.2 [] ["m pick", "s raw"] (by decide)⟩


/-- Some object line of the unit names the goal object. -/
def objMatchB (go : String) (u : PyUnit) : Bool :=
  u.any fun l => pyStarts l 'o' && (match tok1 l with
    | some n => go = n
    | none => false)

/-- Some state line of the unit contains (or equals) the goal state. -/
def stateMatchB (gs : String) (u : PyUnit) : Bool :=
  u.any fun l => !pyStarts l 'o' && pyStarts l 's' &&
    (strIn gs (stateValOf l) || gs = stateValOf l)

lemma pyStarts_s_not_o (l : String) (h : pyStarts l 's' = true) : pyStarts l 'o' = false := by
  obtain ⟨data⟩ := l
  cases data with
  | nil => exact absurd h (by simp [pyStarts])
  | cons a as =>
    have ha : a = 's' := by simpa [pyStarts] using h
    subst ha
    rfl

lemma umgLoop_char (go gs : String) (u : List String) (hwf : wfUnit u) :
    ∀ om sm, umgLoop go gs om sm u = .ok (om || objMatchB go u, sm || stateMatchB gs u) := by
  induction u with
  | nil => intro om sm; simp [umgLoop, objMatchB, stateMatchB]
  | cons line rest ih =>
    intro om sm
    have hrest : wfUnit rest := fun l hl => hwf l (List.mem_cons_of_mem _ hl)
    by_cases ho : pyStarts line 'o' = true
    · obtain ⟨name, hname⟩ := Option.isSome_iff_exists.mp (hwf line (List.mem_cons_self _ _) ho)
      have hname2 : (pySplit line)[1]? = some name := hname
      rw [umgLoop, if_pos ho, hname2]
      show umgLoop go gs (om || (go = name)) sm rest = _
      rw [ih hrest]
      simp only [objMatchB, stateMatchB, List.any_cons, tok1, hname2, ho, Bool.true_and,
        Bool.not_true, Bool.false_and, Bool.false_or, Bool.or_assoc]
    · have hob : pyStarts line 'o' = false := by simpa using ho
      by_cases hs : pyStarts line 's' = true
      · rw [umgLoop, if_neg ho, if_pos hs]
        rw [ih hrest]
        simp only [objMatchB, stateMatchB, List.any_cons, hob, hs, Bool.not_false, Bool.false_and,
          Bool.false_or, Bool.true_and, Bool.or_assoc]
      · have hsb : pyStarts line 's' = false := by simpa using hs
        rw [umgLoop, if_neg ho, if_neg hs]
        rw [ih hrest]
        simp only [objMatchB, stateMatchB, List.any_cons, hob, hsb, Bool.not_false, Bool.true_and,
          Bool.false_and, Bool.false_or]

lemma umg_char (u : PyUnit) (go gs : String) (hwf : wfUnit u) :
    unit_matches_goal u go gs = .ok (objMatchB go u && stateMatchB gs u) := by
  unfold unit_matches_goal
  rw [umgLoop_char go gs u hwf false false]
  simp

/-- Claim C5: on a token well formed unit, unit_matches_goal returns
true exactly when the second token of some object line equals the goal object
and some state line contains the goal state as a substring of (or equal
to) the joined remainder of that line; the two lines are independent. -/
theorem c5_unit_matches_goal (u : PyUnit) (go gs : String) (hwf : wfUnit u) :
    unit_matches_goal u go gs = .ok true ↔
      ((∃ l ∈ u, pyStarts l 'o' = true ∧ tok1 l = some go) ∧
       (∃ l ∈ u, pyStarts l 's' = true ∧
          (strIn gs (stateValOf l) = true ∨ gs = stateValOf l))) := by
  rw [umg_char u go gs hwf]
  have hobj : objMatchB go u = true ↔ ∃ l ∈ u, pyStarts l 'o' = true ∧ tok1 l = some go := by
    unfold objMatchB
    rw [List.any_eq_true]
    refine exists_congr fun l => and_congr_right fun _ => ?_
    cases ht : tok1 l with
    | none => simp [ht]
    | some n =>
      simp only [Bool.and_eq_true, decide_eq_true_eq, Option.some.injEq]
      exact and_congr_right fun _ => eq_comm
  have hst : stateMatchB gs u = true ↔
      ∃ l ∈ u, pyStarts l 's' = true ∧ (strIn gs (stateValOf l) = true ∨ gs = stateValOf l) := by
    unfold stateMatchB
    rw [List.any_eq_true]
    refine exists_congr fun l => and_congr_right fun _ => ?_
    constructor
    · intro h
      simp only [Bool.and_eq_true, Bool.or_eq_true] at h
      refine ⟨h.1.2, ?_⟩
      rcases h.2 with h2 | h2
      · exact Or.inl h2
      · exact Or.inr (by simpa using h2)
    · intro ⟨h1, h2⟩
      simp only [Bool.and_eq_true, Bool.or_eq_true]
      refine ⟨⟨?_, h1⟩, ?_⟩
      · simp [pyStarts_s_not_o l h1]
      · rcases h2 with h2 | h2
        · exact Or.inl h2
        · exact Or.inr (by simpa using h2)
  constructor
  · intro h
    have hb := Except.ok.inj h
    rw [Bool.and_eq_true] at hb
    exact ⟨hobj.mp hb.1, hst.mp hb.2⟩
  · intro ⟨h1, h2⟩
    rw [hobj.mpr h1, hst.mpr h2]
    rfl

/-- Witness for claim C5: a concrete unit where the object match and the
state match come from different lines. -/
theorem c5_witness :
    unit_matches_goal ["o onion 1", "o egg 1", "s whole", "s raw"] "onion" "raw" = .ok true :=
  (c5_unit_matches_goal ["o onion 1", "o egg 1", "s whole", "s raw"] "onion" "raw" (by decide)).mpr
    ⟨⟨"o onion 1", by decide, ⟨by decide, by decide⟩⟩,
     ⟨"s raw", by decide, ⟨by decide, Or.inl (by decide)⟩⟩⟩

lemma dls_zero (st : FOON) (go gs : String) : depth_limited_search st go gs 0 = .ok none := by
  unfold depth_limited_search
  rw [if_pos rfl]

lemma dls_depth_eq (st : FOON) (go gs : String) (d : Int) (hd : d ≠ 0) :
    depth_limited_search st go gs d = depth_limited_search st go gs 1 := by
  unfold depth_limited_search
  rw [if_neg hd, if_neg (by omega : ¬(1 : Int) = 0)]

lemma dlsLoop_some_ne_nil (st : FOON) (go gs : String) :
    ∀ (bucket : List PyUnit) (u : PyUnit), dlsLoop st go gs bucket = .ok (some u) → u ≠ [] := by
  intro bucket
  induction bucket with
  | nil => intro u h; exact absurd h (by simp [dlsLoop])
  | cons v rest ih =>
    intro u h
    rw [dlsLoop] at h
    split at h
    · exact absurd h (by simp)
    · rename_i m hm
      split at h
      · rename_i hmt
        split at h
        · exact absurd h (by simp)
        · rename_i ks hks
          split at h
          · have hvu : v = u := Option.some.inj (Except.ok.inj h)
            subst hvu
            intro hnil
            rw [hnil] at hm
            have hfalse : (Except.ok false : Except PyErr Bool) = .ok m := hm
            rw [← Except.ok.inj hfalse] at hmt
            exact absurd hmt (by simp)
          · exact ih u h
      · exact ih u h

lemma dls_some_ne_nil (st : FOON) (go gs : String) (d : Int) (u : PyUnit)
    (h : depth_limited_search st go gs d = .ok (some u)) : u ≠ [] := by
  unfold depth_limited_search at h
  by_cases hd : d = 0
  · rw [if_pos hd] at h
    exact absurd h (by simp)
  · rw [if_neg hd] at h
    cases hl : alookup st.unit_to_objects go with
    | none => rw [hl] at h; exact absurd h (by simp)
    | some bucket => rw [hl] at h; exact dlsLoop_some_ne_nil st go gs bucket u h

lemma idsLoop_all_none (st : FOON) (go gs : String) :
    ∀ ds : List Int, (∀ d ∈ ds, depth_limited_search st go gs d = .ok none) →
      idsLoop st go gs ds = .ok none := by
  intro ds
  induction ds with
  | nil => intro _; rfl
  | cons d rest ih =>
    intro h
    rw [idsLoop, h d (List.mem_cons_self _ _)]
    show idsLoop st go gs rest = Except.ok none
    exact ih fun x hx => h x (List.mem_cons_of_mem _ hx)

lemma ids_core (st : FOON) (go gs : String) (rest : List Int)
    (hrest : ∀ d ∈ rest, d ≠ 0) :
    idsLoop st go gs (0 :: 1 :: rest) = depth_limited_search st go gs 1 := by
  rw [idsLoop, dls_zero]
  show idsLoop st go gs (1 :: rest) = _
  rw [idsLoop]
  cases hr : depth_limited_search st go gs 1 with
  | error e => rfl
  | ok r =>
    cases r with
    | some u =>
      have hu : u ≠ [] := dls_some_ne_nil st go gs 1 u hr
      show (if pyTruthyOpt (some u) = true then Except.ok (some u) else idsLoop st go gs rest) = _
      rw [if_pos (by simpa [pyTruthyOpt, List.isEmpty_iff] using hu)]
    | none =>
      show (if pyTruthyOpt none = true then Except.ok none else idsLoop st go gs rest) = _
      rw [if_neg (by simp [pyTruthyOpt])]
      exact idsLoop_all_none st go gs rest fun d hd =>
        (dls_depth_eq st go gs d (hrest d hd)).trans hr

lemma ids_eq_dls_one (st : FOON) (go gs : String) (md : Int) (hmd : 2 ≤ md) :
    iterative_deepening_search st go gs md = depth_limited_search st go gs 1 := by
  obtain ⟨k, hk⟩ : ∃ k, md.toNat = k + 2 := ⟨md.toNat - 2, by omega⟩
  have hrange : List.range (k + 2) =
      0 :: Nat.succ 0 :: ((List.range k).map Nat.succ).map Nat.succ := by
    rw [List.range_succ_eq_map, List.range_succ_eq_map, List.map_cons]
  unfold iterative_deepening_search pyRange
  rw [hk, hrange]
  simp only [List.map_cons, Int.ofNat_zero, Int.ofNat_succ, zero_add]
  refine ids_core st go gs _ ?_
  intro d hd
  simp only [List.mem_map, List.mem_range, Nat.succ_eq_add_one] at hd
  obtain ⟨a, ⟨b, ⟨j, hj, hjb⟩, hba⟩, had⟩ := hd
  rw [Int.ofNat_eq_coe] at had
  omega

/-- Claim C6: the depth parameter of depth_limited_search is dead above
zero: every depth of at least 1 gives the result of depth 1, and
iterative_deepening_search with any max_depth of at least 2 returns
exactly the depth 1 result (in particular None when no unit matches). -/
theorem c6_depth_is_dead (st : FOON) (go gs : String) :
    (∀ d : Int, 1 ≤ d → depth_limited_search st go gs d = depth_limited_search st go gs 1) ∧
    (∀ md : Int, 2 ≤ md → iterative_deepening_search st go gs md = depth_limited_search st go gs 1) :=
  ⟨fun d hd => dls_depth_eq st go gs d (by omega),
   fun md hmd => ids_eq_dls_one st go gs md hmd⟩

/-- A one unit state used by the positive witnesses. -/
def stWitness : FOON :=
  { graph := [["o onion 1", "s raw"]],
    unit_to_objects := [("onion", [["o onion 1", "s raw"]])],
    kitchen := ["onion"],
    motion_data := [] }

/-- Witness for claim C6 at concrete depths on a concrete state. -/
theorem c6_witness :
    depth_limited_search stWitness "onion" "raw" 5 = depth_limited_search stWitness "onion" "raw" 1 ∧
    iterative_deepening_search stWitness "onion" "raw" 2 =
      depth_limited_search stWitness "onion" "raw" 1 :=
  ⟨(c6_depth_is_dead stWitness "onion" "raw").1 5 (by omega),
   (c6_depth_is_dead stWitness "onion" "raw").2 2 (by omega)⟩

/-- Claim C7: a goal object that is not a key of the unit index makes
depth_limited_search (at every depth) and a_star_search return None, and
no exception is raised. -/
theorem c7_unknown_goal (st : FOON) (go gs : String)
    (h : alookup st.unit_to_objects go = none) :
    (∀ d : Int, depth_limited_search st go gs d = .ok none) ∧
    a_star_search st go gs = .ok none := by
  constructor
  · intro d
    unfold depth_limited_search
    by_cases hd : d = 0
    · rw [if_pos hd]
    · rw [if_neg hd, h]
  · unfold a_star_search
    rw [h]

/-- A state with an empty index. -/
def stEmpty : FOON :=
  { graph := [], unit_to_objects := [], kitchen := [], motion_data := [] }

/-- Witness for claim C7 on a concrete state with an empty index. -/
theorem c7_witness :
    depth_limited_search stEmpty "omelette" "cooked" 3 = .ok none ∧
    a_star_search stEmpty "omelette" "cooked" = .ok none :=
  ⟨(c7_unknown_goal stEmpty "omelette" "cooked" rfl).1 3,
   (c7_unknown_goal stEmpty "omelette" "cooked" rfl).2⟩

/-- Whether a unit matches the goal without raising (decision used to
describe what a_star_search actually returns). -/
def matchesB (go gs : String) (u : PyUnit) : Bool :=
  match unit_matches_goal u go gs with
  | .ok m => m
  | .error _ => false

lemma astarScan_ok_find (st : FOON) (go gs : String) (cost : Rat) :
    ∀ (bucket : List PyUnit) (r : Option PyUnit),
      astarScan st go gs cost bucket = .ok r → r = bucket.find? (matchesB go gs) := by
  intro bucket
  induction bucket with
  | nil =>
    intro r h
    have hnr : (none : Option PyUnit) = r := Except.ok.inj h
    rw [← hnr]
    rfl
  | cons u rest ih =>
    intro r h
    rw [astarScan] at h
    split at h
    · exact absurd h (by simp)
    · rename_i m hm
      split at h
      · rename_i hmt
        subst hmt
        have hmb : matchesB go gs u = true := by unfold matchesB; rw [hm]
        rw [List.find?_cons_of_pos rest hmb]
        split at h
        · exact absurd h (by simp)
        · rename_i ks hks
          rw [if_pos (avail_ok_truthy st.kitchen u ks hks)] at h
          split at h
          · exact absurd h (by simp)
          · split at h
            · exact absurd h (by simp)
            · dsimp only at h
              split at h
              · exact absurd h (by simp)
              · exact (Except.ok.inj h).symm
      · rename_i hmt
        have hmf : m = false := by simpa using hmt
        subst hmf
        have hmb : matchesB go gs u = false := by unfold matchesB; rw [hm]
        rw [List.find?_cons_of_neg rest (by simp [hmb])]
        exact ih r h

lemma scan_agree (st : FOON) (go gs : String) (cost : Rat) :
    ∀ (bucket : List PyUnit) (r : Option PyUnit),
      (∀ u ∈ bucket, unit_matches_goal u go gs = .ok true →
        available_in_kitchen st.kitchen u = .ok KitchenStatus.ktrue) →
      astarScan st go gs cost bucket = .ok r →
      dlsLoop st go gs bucket = .ok r := by
  intro bucket
  induction bucket with
  | nil => intro r _ h; exact h
  | cons u rest ih =>
    intro r hav h
    rw [astarScan] at h
    rw [dlsLoop]
    split at h
    · exact h
    · rename_i m hm
      split at h
      · rename_i hmt
        subst hmt
        rw [if_pos rfl]
        have hkt : available_in_kitchen st.kitchen u = .ok KitchenStatus.ktrue :=
          hav u (List.mem_cons_self _ _) hm
        rw [hkt]
        show Except.ok (some u) = Except.ok r
        split at h
        · rename_i e hae
          exact absurd (hkt.symm.trans hae) (by simp)
        · rename_i ks hks
          have hksk : ks = KitchenStatus.ktrue := (Except.ok.inj (hkt.symm.trans hks)).symm
          subst hksk
          rw [if_pos (show KitchenStatus.ktrue.pyTruthy = true from rfl)] at h
          split at h
          · exact absurd h (by simp)
          · split at h
            · exact absurd h (by simp)
            · dsimp only at h
              split at h
              · exact absurd h (by simp)
              · exact h
      · rename_i hmt
        rw [if_neg hmt]
        exact ih r (fun v hv => hav v (List.mem_cons_of_mem _ hv)) h

/-- A state whose goal bucket holds two matching units, the first of
which is missing an object from the kitchen. -/
def stTwo : FOON :=
  { graph := [["o onion 1", "o egg 1", "s raw"], ["o onion 1", "s raw"]],
    unit_to_objects := [("onion", [["o onion 1", "o egg 1", "s raw"], ["o onion 1", "s raw"]])],
    kitchen := ["onion"],
    motion_data := [] }

/-- Counterexample to claim C1 as stated: on stTwo the first matching
unit is not fully available, so iterative_deepening_search (which tests
the kitchen status with an identity comparison against True) skips it
and returns the second unit, while a_star_search (whose availability
test is a Python truth value test that is always true) returns the
first; the two searches disagree. -/
theorem c1_counterexample :
    a_star_search stTwo "onion" "raw" = .ok (some ["o onion 1", "o egg 1", "s raw"]) ∧
    iterative_deepening_search stTwo "onion" "raw" 40 = .ok (some ["o onion 1", "s raw"]) ∧
    (["o onion 1", "o egg 1", "s raw"] : PyUnit) ≠ ["o onion 1", "s raw"] :=
  ⟨rfl, rfl, by decide⟩

/-- Claim C1 amended: when every goal matching unit of the goal bucket
is fully available in the kitchen and a_star_search raises no exception,
iterative_deepening_search (any max_depth of at least 2) returns exactly
the result of a_star_search; in particular both return None together. -/
theorem c1_amended (st : FOON) (go gs : String) (md : Int) (hmd : 2 ≤ md)
    (hav : ∀ u ∈ (alookup st.unit_to_objects go).getD [],
      unit_matches_goal u go gs = .ok true →
      available_in_kitchen st.kitchen u = .ok KitchenStatus.ktrue)
    (hok : ∃ r, a_star_search st go gs = .ok r) :
    iterative_deepening_search st go gs md = a_star_search st go gs := by
  obtain ⟨r, hr⟩ := hok
  rw [ids_eq_dls_one st go gs md hmd, hr]
  unfold a_star_search at hr
  unfold depth_limited_search
  rw [if_neg (by omega : ¬(1 : Int) = 0)]
  cases hl : alookup st.unit_to_objects go with
  | none =>
    rw [hl] at hr
    exact hr
  | some bucket =>
    rw [hl] at hr
    rw [hl] at hav
    simp only [Option.getD_some] at hav
    show dlsLoop st go gs bucket = Except.ok r
    exact scan_agree st go gs 0 bucket r hav hr

/-- Witness for claim C1 amended on a concrete single unit state. -/
theorem c1_witness :
    iterative_deepening_search stWitness "onion" "raw" 2 = a_star_search stWitness "onion" "raw" :=
  c1_amended stWitness "onion" "raw" 2 (by omega) (by decide)
    ⟨some ["o onion 1", "s raw"], rfl⟩

/-- A state whose only matching unit is missing its object from the
kitchen. -/
def stUnavail : FOON :=
  { graph := [["o onion 1", "s raw"]],
    unit_to_objects := [("onion", [["o onion 1", "s raw"]])],
    kitchen := [],
    motion_data := [] }

/-- Counterexample to claim C3 as stated: on stUnavail no unit is both
matching and fully available (the single matching unit has a missing
object), so the claim demands None, yet a_star_search returns that
unit. -/
theorem c3_counterexample :
    a_star_search stUnavail "onion" "raw" = .ok (some ["o onion 1", "s raw"]) ∧
    available_in_kitchen stUnavail.kitchen ["o onion 1", "s raw"] =
      .ok (KitchenStatus.missing ["onion"]) ∧
    Except.ok (some ["o onion 1", "s raw"]) ≠ (Except.ok none : Except PyErr (Option PyUnit)) :=
  ⟨rfl, rfl, by decide⟩

/-- Claim C3 amended: when a_star_search raises no exception it returns,
on its first and only expansion, the first unit of the goal bucket that
matches the goal per unit_matches_goal, regardless of kitchen
availability (the availability result is always truthy, so it never
filters); if no unit matches, it returns None. -/
theorem c3_amended (st : FOON) (go gs : String)
    (hok : ∃ r, a_star_search st go gs = .ok r) :
    a_star_search st go gs =
      .ok (((alookup st.unit_to_objects go).getD []).find? (matchesB go gs)) := by
  obtain ⟨r, hr⟩ := hok
  unfold a_star_search at hr ⊢
  cases hl : alookup st.unit_to_objects go with
  | none => rfl
  | some bucket =>
    rw [hl] at hr
    have hfind := astarScan_ok_find st go gs 0 bucket r hr
    show astarScan st go gs 0 bucket = Except.ok (((some bucket).getD []).find? (matchesB go gs))
    refine Eq.trans hr ?_
    rw [hfind, Option.getD_some]

/-- Witness for claim C3 amended on a concrete state. -/
theorem c3_witness :
    a_star_search stWitness "onion" "raw" =
      .ok (((alookup stWitness.unit_to_objects "onion").getD []).find? (matchesB "onion" "raw")) :=
  c3_amended stWitness "onion" "raw" ⟨some ["o onion 1", "s raw"], rfl⟩

lemma alookup_mem {α : Type} : ∀ (l : List (String × α)) (k : String) (v : α),
    alookup l k = some v → (k, v) ∈ l := by
  intro l
  induction l with
  | nil => intro k v h; exact absurd h (by simp [alookup])
  | cons p rest ih =>
    intro k v h
    obtain ⟨pk, pv⟩ := p
    rw [alookup] at h
    split at h
    · rename_i heq
      subst heq
      rw [← Option.some.inj h]
      exact List.mem_cons_self _ _
    · exact List.mem_cons_of_mem _ (ih k v h)

lemma getD_ne_zero (m : List (String × Rat)) (key : String)
    (h : ∀ p ∈ m, p.2 ≠ 0) : (alookup m key).getD 1 ≠ 0 := by
  cases hl : alookup m key with
  | none => simp
  | some v =>
    simp only [Option.getD_some]
    exact h (key, v) (alookup_mem m key v hl)

lemma astarScan_motion (st : FOON) (m1 m2 : List (String × Rat)) (go gs : String) (cost : Rat)
    (h1 : ∀ p ∈ m1, p.2 ≠ 0) (h2 : ∀ p ∈ m2, p.2 ≠ 0) :
    ∀ bucket : List PyUnit,
      astarScan { st with motion_data := m1 } go gs cost bucket =
      astarScan { st with motion_data := m2 } go gs cost bucket := by
  intro bucket
  induction bucket with
  | nil => rfl
  | cons u rest ih =>
    rw [astarScan, astarScan]
    dsimp only
    split
    · rfl
    · split
      · split
        · rfl
        · split
          · split
            · rfl
            · split
              · rfl
              · rename_i key ht
                rw [if_neg (getD_ne_zero m1 key h1), if_neg (getD_ne_zero m2 key h2)]
          · exact ih
      · exact ih

/-- A state like stUnavail but whose motion table assigns the looked up
name a success rate of zero. -/
def stZero : FOON :=
  { graph := [["o onion 1", "s raw"]],
    unit_to_objects := [("onion", [["o onion 1", "s raw"]])],
    kitchen := [],
    motion_data := [("onion", 0)] }

/-- Counterexample to claim C8 as stated: with the motion table of
stZero (rate 0 for the name looked up from the first line of the matched
unit), a_star_search raises ZeroDivisionError computing the cost term,
while with the empty table of stUnavail it returns the unit, so two
motion tables give different outcomes. -/
theorem c8_counterexample :
    a_star_search stZero "onion" "raw" = .error PyErr.zeroDivisionError ∧
    a_star_search stUnavail "onion" "raw" = .ok (some ["o onion 1", "s raw"]) ∧
    (Except.error PyErr.zeroDivisionError : Except PyErr (Option PyUnit)) ≠
      .ok (some ["o onion 1", "s raw"]) :=
  ⟨rfl, rfl, by decide⟩

/-- Claim C8 amended: for every two motion tables that assign no zero
success rate, a_star_search returns the same result under either table:
the motion data only feeds a cost term that is discarded before any
comparison (a zero rate instead aborts the call with
ZeroDivisionError). -/
theorem c8_amended (st : FOON) (m1 m2 : List (String × Rat)) (go gs : String)
    (h1 : ∀ p ∈ m1, p.2 ≠ 0) (h2 : ∀ p ∈ m2, p.2 ≠ 0) :
    a_star_search { st with motion_data := m1 } go gs =
    a_star_search { st with motion_data := m2 } go gs := by
  unfold a_star_search
  dsimp only
  cases alookup st.unit_to_objects go with
  | none => rfl
  | some bucket => exact astarScan_motion st m1 m2 go gs 0 h1 h2 bucket

/-- Witness for claim C8 amended: two concrete zero free motion tables
give the same a_star_search result. -/
theorem c8_witness :
    a_star_search { stUnavail with motion_data := [("pick", 2)] } "onion" "raw" =
    a_star_search { stUnavail with motion_data := [] } "onion" "raw" :=
  c8_amended stUnavail [("pick", 2)] [] "onion" "raw" (by decide) (by decide)

/-- The loop of available_in_kitchen with the object state threaded through
every step, mirroring the Python method that receives self and could in
principle assign to its fields; it never does. -/
def availLoopSt (st : FOON) : List String → List String → Except PyErr (List String) × FOON
  | missing, [] => (.ok missing, st)
  | missing, line :: rest =>
    if pyStarts line 'o' then
      match tok1 line with
      | none => (.error PyErr.indexError, st)
      | some object_name =>
        if st.kitchen.contains object_name then availLoopSt st missing rest
        else availLoopSt st (missing ++ [object_name]) rest
    else availLoopSt st missing rest

/-- State threading version of available_in_kitchen. -/
def available_in_kitchen_st (st : FOON) (unit : PyUnit) : Except PyErr KitchenStatus × FOON :=
  match availLoopSt st [] unit with
  | (.error e, st1) => (.error e, st1)
  | (.ok missing, st1) =>
    (.ok (if missing.isEmpty then KitchenStatus.ktrue else KitchenStatus.missing missing), st1)

/-- The loop of unit_matches_goal with the object state threaded through. -/
def umgLoopSt (st : FOON) (go gs : String) :
    Bool → Bool → List String → Except PyErr (Bool × Bool) × FOON
  | om, sm, [] => (.ok (om, sm), st)
  | om, sm, line :: rest =>
    if pyStarts line 'o' then
      match (pySplit line)[1]? with
      | none => (.error PyErr.indexError, st)
      | some object_name => umgLoopSt st go gs (om || (go = object_name)) sm rest
    else if pyStarts line 's' then
      umgLoopSt st go gs om (sm || (strIn gs (stateValOf line) || gs = stateValOf line)) rest
    else umgLoopSt st go gs om sm rest

/-- State threading version of unit_matches_goal. -/
def unit_matches_goal_st (st : FOON) (unit : PyUnit) (go gs : String) :
    Except PyErr Bool × FOON :=
  match umgLoopSt st go gs false false unit with
  | (.error e, st1) => (.error e, st1)
  | (.ok (om, sm), st1) => (.ok (om && sm), st1)

/-- The bucket scan of depth_limited_search with the state threaded through. -/
def dlsLoopSt (go gs : String) : FOON → List PyUnit → Except PyErr (Option PyUnit) × FOON
  | st, [] => (.ok none, st)
  | st, u :: rest =>
    match unit_matches_goal_st st u go gs with
    | (.error e, st1) => (.error e, st1)
    | (.ok m, st1) =>
      if m then
        match available_in_kitchen_st st1 u with
        | (.error e, st2) => (.error e, st2)
        | (.ok ks, st2) =>
          if ks = KitchenStatus.ktrue then (.ok (some u), st2) else dlsLoopSt go gs st2 rest
      else dlsLoopSt go gs st1 rest

/-- State threading version of depth_limited_search. -/
def depth_limited_search_st (st : FOON) (go gs : String) (depth : Int) :
    Except PyErr (Option PyUnit) × FOON :=
  if depth = 0 then (.ok none, st)
  else
    match alookup st.unit_to_objects go with
    | none => (.ok none, st)
    | some bucket => dlsLoopSt go gs st bucket

/-- The depth loop of iterative_deepening_search with the state threaded
through. -/
def idsLoopSt (go gs : String) : FOON → List Int → Except PyErr (Option PyUnit) × FOON
  | st, [] => (.ok none, st)
  | st, d :: ds =>
    match depth_limited_search_st st go gs d with
    | (.error e, st1) => (.error e, st1)
    | (.ok r, st1) => if pyTruthyOpt r then (.ok r, st1) else idsLoopSt go gs st1 ds

/-- State threading version of iterative_deepening_search. -/
def iterative_deepening_search_st (st : FOON) (go gs : String) (max_depth : Int) :
    Except PyErr (Option PyUnit) × FOON :=
  idsLoopSt go gs st (pyRange max_depth)

/-- The bucket scan of a_star_search with the state threaded through. -/
def astarScanSt (go gs : String) (cost : Rat) :
    FOON → List PyUnit → Except PyErr (Option PyUnit) × FOON
  | st, [] => (.ok none, st)
  | st, u :: rest =>
    match unit_matches_goal_st st u go gs with
    | (.error e, st1) => (.error e, st1)
    | (.ok m, st1) =>
      if m then
        match available_in_kitchen_st st1 u with
        | (.error e, st2) => (.error e, st2)
        | (.ok ks, st2) =>
          if ks.pyTruthy then
            match u[0]? with
            | none => (.error PyErr.indexError, st2)
            | some l0 =>
              match (pySplit l0)[1]? with
              | none => (.error PyErr.indexError, st2)
              | some key =>
                let success_rate := (alookup st2.motion_data key).getD 1
                if success_rate = 0 then (.error PyErr.zeroDivisionError, st2)
                else (.ok (some u), st2)
          else astarScanSt go gs cost st2 rest
      else astarScanSt go gs cost st1 rest

/-- State threading version of a_star_search. -/
def a_star_search_st (st : FOON) (go gs : String) : Except PyErr (Option PyUnit) × FOON :=
  match alookup st.unit_to_objects go with
  | none => (.ok none, st)
  | some bucket => astarScanSt go gs 0 st bucket

lemma availLoopSt_frame (st : FOON) :
    ∀ (missing lines : List String), (availLoopSt st missing lines).2 = st := by
  intro missing lines
  induction lines generalizing missing with
  | nil => rfl
  | cons line rest ih =>
    rw [availLoopSt]
    split
    · split
      · rfl
      · rename_i name hname
        split
        · exact ih missing
        · exact ih (missing ++ [name])
    · exact ih missing

lemma avail_st_frame (st : FOON) (u : PyUnit) : (available_in_kitchen_st st u).2 = st := by
  unfold available_in_kitchen_st
  have h := availLoopSt_frame st [] u
  split
  · rename_i e st1 heq
    rw [heq] at h
    exact h
  · rename_i missing st1 heq
    rw [heq] at h
    exact h

lemma umgLoopSt_frame (st : FOON) (go gs : String) :
    ∀ (om sm : Bool) (lines : List String), (umgLoopSt st go gs om sm lines).2 = st := by
  intro om sm lines
  induction lines generalizing om sm with
  | nil => rfl
  | cons line rest ih =>
    rw [umgLoopSt]
    split
    · split
      · rfl
      · exact ih _ _
    · split
      · exact ih _ _
      · exact ih _ _

lemma umg_st_frame (st : FOON) (u : PyUnit) (go gs : String) :
    (unit_matches_goal_st st u go gs).2 = st := by
  unfold unit_matches_goal_st
  have h := umgLoopSt_frame st go gs false false u
  split
  · rename_i e st1 heq
    rw [heq] at h
    exact h
  · rename_i om sm st1 heq
    rw [heq] at h
    exact h

lemma dlsLoopSt_frame (go gs : String) :
    ∀ (bucket : List PyUnit) (st : FOON), (dlsLoopSt go gs st bucket).2 = st := by
  intro bucket
  induction bucket with
  | nil => intro st; rfl
  | cons u rest ih =>
    intro st
    rw [dlsLoopSt]
    split
    · rename_i e st1 heq
      have h1 := umg_st_frame st u go gs
      rw [heq] at h1
      exact h1
    · rename_i m st1 heq
      have h1 : st1 = st := by
        have := umg_st_frame st u go gs
        rw [heq] at this
        exact this
      split
      · split
        · rename_i e st2 heq2
          have h2 := avail_st_frame st1 u
          rw [heq2] at h2
          exact h2.trans h1
        · rename_i ks st2 heq2
          have h2 : st2 = st := by
            have := avail_st_frame st1 u
            rw [heq2] at this
            exact this.trans h1
          split
          · exact h2
          · exact (ih st2).trans h2
      · exact (ih st1).trans h1

lemma dls_st_frame (st : FOON) (go gs : String) (d : Int) :
    (depth_limited_search_st st go gs d).2 = st := by
  unfold depth_limited_search_st
  split
  · rfl
  · split
    · rfl
    · exact dlsLoopSt_frame go gs _ st

lemma idsLoopSt_frame (go gs : String) :
    ∀ (ds : List Int) (st : FOON), (idsLoopSt go gs st ds).2 = st := by
  intro ds
  induction ds with
  | nil => intro st; rfl
  | cons d rest ih =>
    intro st
    rw [idsLoopSt]
    split
    · rename_i e st1 heq
      have h1 := dls_st_frame st go gs d
      rw [heq] at h1
      exact h1
    · rename_i r st1 heq
      have h1 : st1 = st := by
        have := dls_st_frame st go gs d
        rw [heq] at this
        exact this
      split
      · exact h1
      · exact (ih st1).trans h1

lemma ids_st_frame (st : FOON) (go gs : String) (md : Int) :
    (iterative_deepening_search_st st go gs md).2 = st :=
  idsLoopSt_frame go gs (pyRange md) st

lemma astarScanSt_frame (go gs : String) (cost : Rat) :
    ∀ (bucket : List PyUnit) (st : FOON), (astarScanSt go gs cost st bucket).2 = st := by
  intro bucket
  induction bucket with
  | nil => intro st; rfl
  | cons u rest ih =>
    intro st
    rw [astarScanSt]
    split
    · rename_i e st1 heq
      have h1 := umg_st_frame st u go gs
      rw [heq] at h1
      exact h1
    · rename_i m st1 heq
      have h1 : st1 = st := by
        have := umg_st_frame st u go gs
        rw [heq] at this
        exact this
      split
      · split
        · rename_i e st2 heq2
          have h2 := avail_st_frame st1 u
          rw [heq2] at h2
          exact h2.trans h1
        · rename_i ks st2 heq2
          have h2 : st2 = st := by
            have := avail_st_frame st1 u
            rw [heq2] at this
            exact this.trans h1
          split
          · split
            · exact h2
            · split
              · exact h2
              · dsimp only
                split
                · exact h2
                · exact h2
          · exact (ih st2).trans h2
      · exact (ih st1).trans h1

lemma astar_st_frame (st : FOON) (go gs : String) : (a_star_search_st st go gs).2 = st := by
  unfold a_star_search_st
  split
  · rfl
  · exact astarScanSt_frame go gs 0 _ st

/-- Claim C9: nothing is mutated after load: each search and check
operation, with the loaded state threaded through every step of its
loops, leaves the state (units, index, kitchen, motion table) identical
to what it received. -/
theorem c9_no_mutation :
    ∀ (st : FOON) (u : PyUnit) (go gs : String) (d md : Int),
      (available_in_kitchen_st st u).2 = st ∧
      (unit_matches_goal_st st u go gs).2 = st ∧
      (depth_limited_search_st st go gs d).2 = st ∧
      (iterative_deepening_search_st st go gs md).2 = st ∧
      (a_star_search_st st go gs).2 = st :=
  fun st u go gs d md =>
    ⟨avail_st_frame st u, umg_st_frame st u go gs, dls_st_frame st go gs d,
     ids_st_frame st go gs md, astar_st_frame st go gs⟩

/-- Delimiter test of load_foon on a normalized line: a lone backslash
(dead after normalization, which deletes backslashes) or an empty
line. -/
def isDelim (line : String) : Bool :=
  line = "\\" || line = ""

/-- The object names announced by the object lines of a unit under
construction, in order: one pending bucket append per object line. -/
def oTokens (u : PyUnit) : List String :=
  u.filterMap fun l => if pyStarts l 'o' then tok1 l else none

/-- Append a finished unit to the bucket of each pending name, in
order.  load_foon appends current_unit to buckets by reference while the
unit is still growing, so the value finally observed in each bucket is
the completed unit; this is modelled by deferring the appends to the
moment the unit is complete. -/
def resolvePending :
    List (String × List PyUnit) → List String → PyUnit → List (String × List PyUnit)
  | idx, [], _ => idx
  | idx, n :: ns, u => resolvePending (aupd idx n u) ns u

/-- The parsing loop of load_foon over the raw input lines: normalize
each line, flush the unit under construction at each delimiter (only
nonempty units are appended to the units list), and record a pending
bucket append for each object line (a one token object line raises
IndexError); at end of input the pending appends of the trailing unit
are resolved but the trailing unit is not appended to the units list. -/
def loadLoop :
    List PyUnit → List (String × List PyUnit) → PyUnit → List String → List String →
    Except PyErr (List PyUnit × List (String × List PyUnit))
  | units, idx, cur, pend, [] => .ok (units, resolvePending idx pend cur)
  | units, idx, cur, pend, l :: ls =>
    if isDelim (normalizeLine l) then
      if cur.isEmpty then loadLoop units idx [] [] ls
      else loadLoop (units ++ [cur]) (resolvePending idx pend cur) [] [] ls
    else
      if pyStarts (normalizeLine l) 'o' then
        match tok1 (normalizeLine l) with
        | none => .error PyErr.indexError
        | some object_name =>
          loadLoop units idx (cur ++ [normalizeLine l]) (pend ++ [object_name]) ls
      else loadLoop units idx (cur ++ [normalizeLine l]) pend ls

/-- load_foon: parse the raw lines of the FOON file into the units list
and the object name to units index. -/
def load_foon (lines : List String) :
    Except PyErr (List PyUnit × List (String × List PyUnit)) :=
  loadLoop [] [] [] [] lines

/-- The units list load_foon returns, when no exception is raised. -/
def loadUnits (lines : List String) : Option (List PyUnit) :=
  (load_foon lines).toOption.map Prod.fst

/-- The bucket of a name in the index load_foon returns (empty when the
name is not a key), when no exception is raised. -/
def loadBucket (lines : List String) (name : String) : Option (List PyUnit) :=
  (load_foon lines).toOption.map fun r => (alookup r.2 name).getD []

/-- The groups of consecutive non delimiter normalized lines that are
terminated by a delimiter line (the specification of the units list the
parser builds: a trailing group is never flushed). -/
def groupsTermAux : PyUnit → List String → List PyUnit
  | _, [] => []
  | cur, l :: ls =>
    if isDelim l then
      if cur.isEmpty then groupsTermAux [] ls else cur :: groupsTermAux [] ls
    else groupsTermAux (cur ++ [l]) ls

/-- Terminated groups of a normalized line list, from an empty start. -/
def groupsTerm (lines : List String) : List PyUnit :=
  groupsTermAux [] lines

/-- All maximal groups of consecutive non delimiter normalized lines,
including a trailing group not terminated by a delimiter (the natural
reading of grouping lines into units). -/
def groupsAllAux : PyUnit → List String → List PyUnit
  | cur, [] => if cur.isEmpty then [] else [cur]
  | cur, l :: ls =>
    if isDelim l then
      if cur.isEmpty then groupsAllAux [] ls else cur :: groupsAllAux [] ls
    else groupsAllAux (cur ++ [l]) ls

/-- All maximal groups of a normalized line list, from an empty start. -/
def groupsAll (lines : List String) : List PyUnit :=
  groupsAllAux [] lines

/-- The bucket a name should hold: each group once per object line
announcing that name, in group order then line order. -/
def bucketSpecOf (name : String) (gs : List PyUnit) : List PyUnit :=
  gs.flatMap fun g => ((oTokens g).filter (fun n => n = name)).map (fun _ => g)

lemma aupd_lookup {α : Type} :
    ∀ (idx : List (String × List α)) (k : String) (v : α) (key : String),
      (alookup (aupd idx k v) key).getD [] =
        if k = key then (alookup idx key).getD [] ++ [v] else (alookup idx key).getD [] := by
  intro idx
  induction idx with
  | nil =>
    intro k v key
    by_cases h : k = key
    · subst h
      simp [aupd, alookup]
    · simp [aupd, alookup, h]
  | cons p rest ih =>
    intro k v key
    obtain ⟨pk, pvs⟩ := p
    by_cases hpk : pk = k
    · subst hpk
      rw [aupd, if_pos rfl]
      by_cases hkey : pk = key
      · subst hkey
        simp [alookup]
      · simp [alookup, hkey]
    · rw [aupd, if_neg hpk]
      by_cases hkey : pk = key
      · subst hkey
        have hk2 : ¬ k = pk := fun hc => hpk hc.symm
        simp [alookup, hk2]
      · simp only [alookup, hkey, if_false, if_neg hkey]
        exact ih k v key

lemma resolvePending_lookup :
    ∀ (ns : List String) (idx : List (String × List PyUnit)) (u : PyUnit) (key : String),
      (alookup (resolvePending idx ns u) key).getD [] =
        (alookup idx key).getD [] ++ ((ns.filter (fun n => n = key)).map (fun _ => u)) := by
  intro ns
  induction ns with
  | nil => intro idx u key; simp [resolvePending]
  | cons n rest ih =>
    intro idx u key
    rw [resolvePending, ih]
    by_cases h : n = key
    · subst h
      rw [aupd_lookup idx n u n, if_pos rfl]
      simp [List.filter_cons, List.append_assoc]
    · rw [aupd_lookup idx n u key, if_neg h]
      simp [List.filter_cons, h]

lemma oTokens_append_line (cur : PyUnit) (line : String) :
    oTokens (cur ++ [line]) =
      oTokens cur ++ (if pyStarts line 'o' then (tok1 line).toList else []) := by
  unfold oTokens
  rw [List.filterMap_append]
  congr 1
  by_cases h : pyStarts line 'o' = true
  · rw [if_pos h]
    cases ht : tok1 line with
    | none => simp [h, ht]
    | some name => simp [h, ht]
  · rw [if_neg h]
    have hb : pyStarts line 'o' = false := by simpa using h
    simp [hb]

lemma groupsAllAux_ne_nil :
    ∀ (ls : List String) (cur : PyUnit), ∀ u ∈ groupsAllAux cur ls, u ≠ [] := by
  intro ls
  induction ls with
  | nil =>
    intro cur u hu
    rw [groupsAllAux] at hu
    by_cases hc : cur.isEmpty
    · rw [if_pos hc] at hu
      exact absurd hu (by simp)
    · rw [if_neg hc] at hu
      have : u = cur := by simpa using hu
      subst this
      simpa [List.isEmpty_iff] using hc
  | cons l rest ih =>
    intro cur u hu
    rw [groupsAllAux] at hu
    by_cases hd : isDelim l = true
    · rw [if_pos hd] at hu
      by_cases hc : cur.isEmpty
      · rw [if_pos hc] at hu
        exact ih [] u hu
      · rw [if_neg hc] at hu
        rcases List.mem_cons.mp hu with hcu | hrest
        · subst hcu
          simpa [List.isEmpty_iff] using hc
        · exact ih [] u hrest
    · rw [if_neg hd] at hu
      exact ih (cur ++ [l]) u hu

lemma bucketSpecOf_cons (name : String) (g : PyUnit) (gs : List PyUnit) :
    bucketSpecOf name (g :: gs) =
      ((oTokens g).filter (fun n => n = name)).map (fun _ => g) ++ bucketSpecOf name gs := by
  unfold bucketSpecOf
  rw [List.flatMap_cons]

lemma loadLoop_char :
    ∀ (ls : List String) (units : List PyUnit) (idx : List (String × List PyUnit)) (cur : PyUnit),
      (∀ l ∈ ls, pyStarts (normalizeLine l) 'o' = true → (tok1 (normalizeLine l)).isSome = true) →
      ∃ fidx,
        loadLoop units idx cur (oTokens cur) ls =
          .ok (units ++ groupsTermAux cur (ls.map normalizeLine), fidx) ∧
        ∀ key, (alookup fidx key).getD [] =
          (alookup idx key).getD [] ++ bucketSpecOf key (groupsAllAux cur (ls.map normalizeLine)) := by
  intro ls
  induction ls with
  | nil =>
    intro units idx cur _
    refine ⟨resolvePending idx (oTokens cur) cur, ?_, ?_⟩
    · simp [loadLoop, groupsTermAux]
    · intro key
      rw [resolvePending_lookup (oTokens cur) idx cur key]
      rw [List.map_nil, groupsAllAux]
      by_cases hc : cur.isEmpty
      · have hcur : cur = [] := List.isEmpty_iff.mp hc
        subst hcur
        simp [oTokens, bucketSpecOf]
      · rw [if_neg hc]
        simp [bucketSpecOf]
  | cons l rest ih =>
    intro units idx cur hwf
    have hwftail : ∀ x ∈ rest, pyStarts (normalizeLine x) 'o' = true →
        (tok1 (normalizeLine x)).isSome = true :=
      fun x hx => hwf x (List.mem_cons_of_mem _ hx)
    rw [loadLoop]
    by_cases hd : isDelim (normalizeLine l) = true
    · rw [if_pos hd]
      by_cases hc : cur.isEmpty
      · have hcur : cur = [] := List.isEmpty_iff.mp hc
        subst hcur
        have hnil : ([] : PyUnit).isEmpty = true := rfl
        rw [if_pos hnil]
        obtain ⟨fidx, h1, h2⟩ := ih units idx [] hwftail
        refine ⟨fidx, ?_, ?_⟩
        · rw [List.map_cons, groupsTermAux, if_pos hd, if_pos hnil]
          exact h1
        · intro key
          rw [List.map_cons, groupsAllAux, if_pos hd, if_pos hnil]
          exact h2 key
      · rw [if_neg hc]
        obtain ⟨fidx, h1, h2⟩ := ih (units ++ [cur]) (resolvePending idx (oTokens cur) cur) [] hwftail
        refine ⟨fidx, ?_, ?_⟩
        · rw [List.map_cons, groupsTermAux, if_pos hd, if_neg hc]
          rw [show units ++ (cur :: groupsTermAux [] (rest.map normalizeLine)) =
            (units ++ [cur]) ++ groupsTermAux [] (rest.map normalizeLine) from by simp]
          exact h1
        · intro key
          rw [List.map_cons, groupsAllAux, if_pos hd, if_neg hc, bucketSpecOf_cons]
          rw [h2 key, resolvePending_lookup (oTokens cur) idx cur key, List.append_assoc]
    · rw [if_neg hd]
      by_cases ho : pyStarts (normalizeLine l) 'o' = true
      · rw [if_pos ho]
        have htk : (tok1 (normalizeLine l)).isSome = true :=
          hwf l (List.mem_cons_self _ _) ho
        obtain ⟨name, hname⟩ := Option.isSome_iff_exists.mp htk
        rw [hname]
        have hot : oTokens (cur ++ [normalizeLine l]) = oTokens cur ++ [name] := by
          simp [oTokens_append_line, ho, hname]
        obtain ⟨fidx, h1, h2⟩ := ih units idx (cur ++ [normalizeLine l]) hwftail
        rw [hot] at h1
        refine ⟨fidx, ?_, ?_⟩
        · rw [List.map_cons, groupsTermAux, if_neg hd]
          show loadLoop units idx (cur ++ [normalizeLine l]) (oTokens cur ++ [name]) rest = _
          exact h1
        · intro key
          rw [List.map_cons, groupsAllAux, if_neg hd]
          exact h2 key
      · rw [if_neg ho]
        have hot : oTokens (cur ++ [normalizeLine l]) = oTokens cur := by
          simp [oTokens_append_line, ho]
        obtain ⟨fidx, h1, h2⟩ := ih units idx (cur ++ [normalizeLine l]) hwftail
        rw [hot] at h1
        refine ⟨fidx, ?_, ?_⟩
        · rw [List.map_cons, groupsTermAux, if_neg hd]
          exact h1
        · intro key
          rw [List.map_cons, groupsAllAux, if_neg hd]
          exact h2 key

/-- Claim C10 amended: the parser normalizes each line and groups
consecutive non delimiter lines into units, completing a unit only at a
delimiter line (a trailing group at end of input is not appended to the
units list, though its object lines are still indexed); no group is
empty, so consecutive delimiters never produce an empty unit; and every
object line causes the unit under construction (as finally completed)
to be appended once to the bucket of that object name in the index. -/
theorem c10_amended (lines : List String)
    (hwf : ∀ l ∈ lines, pyStarts (normalizeLine l) 'o' = true →
      (tok1 (normalizeLine l)).isSome = true) :
    loadUnits lines = some (groupsTerm (lines.map normalizeLine)) ∧
    (∀ name, loadBucket lines name =
      some (bucketSpecOf name (groupsAll (lines.map normalizeLine)))) ∧
    (∀ u ∈ groupsAll (lines.map normalizeLine), u ≠ []) := by
  obtain ⟨fidx, h1, h2⟩ := loadLoop_char lines [] [] [] hwf
  have hld : load_foon lines = .ok (groupsTerm (lines.map normalizeLine), fidx) := by
    unfold load_foon groupsTerm
    have h1b : loadLoop [] [] [] [] lines =
        .ok ([] ++ groupsTermAux [] (lines.map normalizeLine), fidx) := h1
    rw [h1b]
    simp
  refine ⟨?_, ?_, ?_⟩
  · unfold loadUnits
    rw [hld]
    rfl
  · intro name
    unfold loadBucket
    rw [hld]
    show some ((alookup fidx name).getD []) =
      some (bucketSpecOf name (groupsAll (lines.map normalizeLine)))
    rw [h2 name]
    unfold groupsAll
    simp [alookup]
  · exact fun u hu => groupsAllAux_ne_nil (lines.map normalizeLine) [] u hu

/-- Counterexample to claim C10 as stated: on the one line input with no
trailing delimiter, grouping the lines into units yields one unit, but
load_foon returns an empty units list (the trailing unit is only ever
flushed by a delimiter), even though the unit was indexed under its
object name. -/
theorem c10_counterexample :
    loadUnits ["o egg 1"] = some [] ∧
    groupsAll (["o egg 1"].map normalizeLine) = [["o egg 1"]] ∧
    loadBucket ["o egg 1"] "egg" = some [["o egg 1"]] ∧
    (some ([] : List PyUnit) ≠ some [["o egg 1"]]) :=
  ⟨rfl, rfl, rfl, by decide⟩

/-- Witness for claim C10 amended on a concrete two unit input. -/
theorem c10_witness :
    loadUnits ["o egg 1", "s raw", "", "m crack"] =
      some (groupsTerm (["o egg 1", "s raw", "", "m crack"].map normalizeLine)) ∧
    loadBucket ["o egg 1", "s raw", "", "m crack"] "egg" =
      some (bucketSpecOf "egg" (groupsAll (["o egg 1", "s raw", "", "m crack"].map normalizeLine))) :=
  ⟨(c10_amended ["o egg 1", "s raw", "", "m crack"] (by decide)).1,
   (c10_amended ["o egg 1", "s raw", "", "m crack"] (by decide)).2.1 "egg"⟩
